import Mathlib

/-!
Verification of the Dino-runner reinforcement-learning pipeline.

Shallow embedding of the repository's core components:
- the physics engine (class DinoPhysics: reset/step with gravity, jumping,
  obstacle spawning/movement/culling, collision and score accounting);
- the RL environment adapter (class DinoEnv: frame-skip stepping, reward
  shaping, termination discipline, observation building);
- the replay buffer (class ReplayBuffer: circular add, uniform sampling);
- the DQN training target computation (double-estimator target, Huber loss);
- the training worker's epsilon annealing and cooperative-cancellation loop.

Numbers are modelled by the rationals; JavaScript floating-point values are
embedded as exact rational arithmetic with the same operation structure
(min/max clamps, floor, exact equality tests).  A call to Math.random() is
modelled by an explicitly passed rational draw in the interval from 0 to 1.
-/

namespace DinoRL

/-! ### Physics engine (class DinoPhysics) -/

/-- World constants of DinoPhysics. -/
def worldWidth : ℚ := 800

def worldHeight : ℚ := 200

def groundY : ℚ := 160

def dinoX : ℚ := 80

def gravity : ℚ := 9 / 10

def jumpVelocity : ℚ := -14

def baseSpeed : ℚ := 6

/-- The celebratory letter sequence (letter, color) of DinoPhysics. -/
def letterSequence : List (String × String) :=
  [("R", "#ff4d4d"), ("E", "#ff8a00"), ("I", "#ffd60a"), ("N", "#2ec27e"),
   ("O", "#339dff"), ("U", "#7b4dff"), ("T", "#d948e8")]

inductive ObKind where
  | letter
  | cactus
deriving DecidableEq, Repr

/-- An obstacle record.  Optional fields mirror the optional TypeScript
fields; the `passed` flag starts absent (falsy), modelled as `false`. -/
structure Obstacle where
  x : ℚ
  width : ℚ
  height : ℚ
  passed : Bool
  kind : Option ObKind
  letter : Option String
  color : Option String
  sequenceIndex : Option ℕ
deriving DecidableEq, Repr

structure StepInput where
  jump : Bool
  duck : Bool
deriving DecidableEq, Repr

structure StepResult where
  done : Bool
  score : ℤ
  speed : ℚ
  dinoY : ℚ
  obstacles : List Obstacle
  obstaclesCleared : ℕ
  letterSequenceProgress : ℕ
  letterSequenceTotal : ℕ
  letterSequenceJustCompleted : Bool
deriving DecidableEq, Repr

/-- Mutable state of a DinoPhysics instance.  `spawnOff` models a
spawnCooldown of Number.POSITIVE_INFINITY (set when the letter celebration
completes): while it is true the cooldown is never decremented below zero
and the spawn branch never fires, exactly as infinity behaves in the source. -/
structure PhysState where
  velY : ℚ
  dinoY : ℚ
  speed : ℚ
  obstacles : List Obstacle
  spawnCooldown : ℚ
  spawnOff : Bool
  scoreInt : ℤ
  scoreAcc : ℚ
  obstaclesCleared : ℕ
  letterQueueIndex : ℕ
  letterProgress : ℕ
  letterCelebrated : Bool
  t : ℚ
deriving DecidableEq, Repr

/-- State of a freshly constructed DinoPhysics instance (class field
initializers; note spawnCooldown starts at 0, unlike after reset()). -/
def initPhysState : PhysState :=
  { velY := 0, dinoY := groundY, speed := baseSpeed, obstacles := [],
    spawnCooldown := 0, spawnOff := false, scoreInt := 0, scoreAcc := 0,
    obstaclesCleared := 0, letterQueueIndex := 0, letterProgress := 0,
    letterCelebrated := false, t := 0 }

/-- DinoPhysics.reset(). -/
def resetState : PhysState :=
  { velY := 0, dinoY := groundY, speed := baseSpeed, obstacles := [],
    spawnCooldown := 30, spawnOff := false, scoreInt := 0, scoreAcc := 0,
    obstaclesCleared := 0, letterQueueIndex := 0, letterProgress := 0,
    letterCelebrated := false, t := 0 }

/-- One triple of Math.random() draws consumed by a single physics step
(obstacle height, obstacle width, spawn cooldown). -/
structure Rand where
  r1 : ℚ
  r2 : ℚ
  r3 : ℚ
deriving DecidableEq, Repr

/-- The obstacle-spawning block of DinoPhysics.step: decrement the cooldown
by f and, when it is non-positive, push a letter obstacle (celebratory run,
letters remaining), or a random cactus (normal run), or nothing.  Returns
the new obstacle list, cooldown, and letter queue index. -/
def spawnPhase (celebratory : Bool) (f : ℚ) (r : Rand) (s : PhysState) :
    List Obstacle × ℚ × ℕ :=
  let cooldown1 := if s.spawnOff then s.spawnCooldown else s.spawnCooldown - f
  if s.spawnOff = false ∧ cooldown1 ≤ 0 then
    if celebratory = true ∧ s.letterQueueIndex < letterSequence.length then
      let seq := letterSequence.getD s.letterQueueIndex ("", "")
      (s.obstacles ++
        [{ x := worldWidth + 40, width := 46, height := 70, passed := false,
           kind := some ObKind.letter, letter := some seq.1, color := some seq.2,
           sequenceIndex := some s.letterQueueIndex }],
       80, s.letterQueueIndex + 1)
    else if celebratory = false then
      let hgt : ℚ := 20 + (⌊r.r1 * 30⌋ : ℤ)
      let wid : ℚ := 10 + (⌊r.r2 * 20⌋ : ℤ)
      (s.obstacles ++
        [{ x := worldWidth + 20, width := wid, height := hgt, passed := false,
           kind := some ObKind.cactus, letter := none, color := none,
           sequenceIndex := none }],
       60 + r.r3 * 40, s.letterQueueIndex)
    else (s.obstacles, cooldown1, s.letterQueueIndex)
  else (s.obstacles, cooldown1, s.letterQueueIndex)

/-- The per-obstacle effect of the movement loop: shift left by speed × f and
mark as passed when the (moved) trailing edge is strictly left of the actor. -/
def moveOb (sp f : ℚ) (ob : Obstacle) : Obstacle :=
  let x2 := ob.x - sp * f
  { ob with x := x2, passed := ob.passed || decide (x2 + ob.width < dinoX) }

/-- The obstacle movement-and-marking loop of DinoPhysics.step, threading the
cumulative cleared counter and the letter progress through the list exactly
as the source's for-loop mutates them. -/
def moveMark (celebratory : Bool) (sp f : ℚ) :
    List Obstacle → ℕ → ℕ → List Obstacle × ℕ × ℕ
  | [], cleared, lp => ([], cleared, lp)
  | ob :: rest, cleared, lp =>
    let obM := { ob with x := ob.x - sp * f }
    if obM.passed = false ∧ obM.x + obM.width < dinoX then
      let obDone := { obM with passed := true }
      let lp2 := if celebratory = true ∧ obM.kind = some ObKind.letter then
          min letterSequence.length (lp + 1)
        else lp
      let rec1 := moveMark celebratory sp f rest (cleared + 1) lp2
      (obDone :: rec1.1, rec1.2)
    else
      let rec1 := moveMark celebratory sp f rest cleared lp
      (obM :: rec1.1, rec1.2)

/-- Axis-aligned bounding-box collision test between the actor's hitbox and
one obstacle, as in DinoPhysics.step. -/
def hitTest (dy : ℚ) (ob : Obstacle) : Bool :=
  let bx := dinoX - 20
  let byTop := dy - 30
  let ox := ob.x
  let oy := groundY + 10 - ob.height
  decide (bx < ox + ob.width) && decide (ox < bx + 40) &&
    decide (byTop < oy + ob.height) && decide (oy < byTop + 40)

/-- The fractional score accumulator update of DinoPhysics.step. -/
def scorePhase (sp f : ℚ) (scoreInt : ℤ) (scoreAcc : ℚ) : ℤ × ℚ :=
  let acc := scoreAcc + sp / 6 * f
  if 1 ≤ acc then
    let inc := ⌊acc⌋
    (scoreInt + inc, acc - (inc : ℚ))
  else (scoreInt, acc)

/-- The difficulty ramp: speed = base + min(8, score / 150). -/
def stepSpeed (s : PhysState) : ℚ :=
  baseSpeed + min 8 ((s.scoreInt : ℚ) / 150)

/-- DinoPhysics.step(input, frames), with the per-call Math.random() draws
passed explicitly.  Returns the snapshot and the successor state. -/
def physStep (celebratory : Bool) (input : StepInput) (frames : ℚ) (r : Rand)
    (s : PhysState) : StepResult × PhysState :=
  let f := max 0 frames
  let t2 := s.t + f
  let speed2 := stepSpeed s
  let velY1 := if input.jump = true ∧ groundY ≤ s.dinoY then jumpVelocity else s.velY
  let velY2 := velY1 + gravity * f
  let dinoY2 := min groundY (s.dinoY + velY2 * f)
  let velY3 := if dinoY2 = groundY then 0 else velY2
  let sp := spawnPhase celebratory f r s
  let mm := moveMark celebratory speed2 f sp.1 s.obstaclesCleared s.letterProgress
  let culled := mm.1.dropWhile (fun ob => decide (ob.x + ob.width < 0))
  let lettersTotal := if celebratory then letterSequence.length else 0
  let justCompleted := celebratory && !s.letterCelebrated &&
    decide (0 < lettersTotal) && decide (lettersTotal ≤ mm.2.2)
  let spawnOff2 := if justCompleted then true else s.spawnOff
  let celebrated2 := if justCompleted then true else s.letterCelebrated
  let done := culled.any (hitTest dinoY2)
  let sc := scorePhase speed2 f s.scoreInt s.scoreAcc
  ({ done := done, score := sc.1, speed := speed2, dinoY := dinoY2,
     obstacles := culled, obstaclesCleared := mm.2.1,
     letterSequenceProgress := mm.2.2, letterSequenceTotal := lettersTotal,
     letterSequenceJustCompleted := justCompleted },
   { velY := velY3, dinoY := dinoY2, speed := speed2, obstacles := culled,
     spawnCooldown := sp.2.1, spawnOff := spawnOff2, scoreInt := sc.1,
     scoreAcc := sc.2, obstaclesCleared := mm.2.1,
     letterQueueIndex := sp.2.2, letterProgress := mm.2.2,
     letterCelebrated := celebrated2, t := t2 })

/-- One step() call: the input, the frame count, and the random draws. -/
def StepCall : Type := StepInput × ℚ × Rand

/-- Run a sequence of step() calls from a state, keeping final state. -/
def runPhys (celebratory : Bool) (calls : List StepCall) (s : PhysState) :
    PhysState :=
  calls.foldl (fun st c => (physStep celebratory c.1 c.2.1 c.2.2 st).2) s

/-- The ground invariant: the actor never sinks below the ground line, and
its velocity is zero exactly when it rests on the ground line. -/
def GroundInv (s : PhysState) : Prop :=
  s.dinoY ≤ groundY ∧ (s.dinoY = groundY → s.velY = 0)

lemma physStep_groundInv (celebratory : Bool) (input : StepInput) (frames : ℚ)
    (r : Rand) (s : PhysState) :
    GroundInv (physStep celebratory input frames r s).2 := by
  refine ⟨min_le_left _ _, fun h => ?_⟩
  simp only [physStep] at h ⊢
  rw [if_pos h]

lemma runPhys_groundInv (celebratory : Bool) (calls : List StepCall)
    (s : PhysState) (hs : GroundInv s) :
    GroundInv (runPhys celebratory calls s) := by
  induction calls generalizing s with
  | nil => exact hs
  | cons c cs ih =>
    exact ih _ (physStep_groundInv celebratory c.1 c.2.1 c.2.2 s)

/-- Claim C1: for every sequence of step() calls on a freshly reset
DinoPhysics engine, the actor's vertical position dinoY never exceeds the
ground line groundY in any returned snapshot (every snapshot state is
`runPhys` of a prefix of the calls), and the vertical velocity is exactly
zero in every snapshot in which dinoY equals groundY. -/
theorem dino_ground_clamp (celebratory : Bool) (calls : List StepCall) :
    (runPhys celebratory calls resetState).dinoY ≤ groundY ∧
      ((runPhys celebratory calls resetState).dinoY = groundY →
        (runPhys celebratory calls resetState).velY = 0) :=
  runPhys_groundInv celebratory calls resetState
    ⟨le_refl _, fun _ => rfl⟩

/-- Witness for claim C1 at a concrete two-call sequence (a jump, then an
idle step). -/
theorem dino_ground_clamp_witness :
    (runPhys false
        [(⟨true, false⟩, 1, ⟨0, 0, 0⟩), (⟨false, false⟩, 1, ⟨0, 0, 0⟩)]
        resetState).dinoY ≤ groundY ∧
      ((runPhys false
          [(⟨true, false⟩, 1, ⟨0, 0, 0⟩), (⟨false, false⟩, 1, ⟨0, 0, 0⟩)]
          resetState).dinoY = groundY →
        (runPhys false
          [(⟨true, false⟩, 1, ⟨0, 0, 0⟩), (⟨false, false⟩, 1, ⟨0, 0, 0⟩)]
          resetState).velY = 0) :=
  dino_ground_clamp false
    [(⟨true, false⟩, 1, ⟨0, 0, 0⟩), (⟨false, false⟩, 1, ⟨0, 0, 0⟩)]

/-! ### Obstacle marking and culling (claim C9) -/

/-- An obstacle is newly passed during a step from state `s` when its flag is
still unset and its moved trailing edge ends up strictly left of the actor. -/
def newlyPassed (s : PhysState) (frames : ℚ) (ob : Obstacle) : Bool :=
  !ob.passed && decide (ob.x - stepSpeed s * max 0 frames + ob.width < dinoX)

lemma moveMark_fst (cel : Bool) (sp f : ℚ) (l : List Obstacle) (c lp : ℕ) :
    (moveMark cel sp f l c lp).1 = l.map (moveOb sp f) := by
  induction l generalizing c lp with
  | nil => rfl
  | cons ob rest ih =>
    simp only [moveMark, moveOb, List.map_cons]
    split
    · rename_i hcond
      refine congrArg₂ _ ?_ (ih _ _)
      have h1 : ob.passed = false := hcond.1
      have h2 : ob.x - sp * f + ob.width < dinoX := hcond.2
      simp [h1, h2]
    · rename_i hcond
      refine congrArg₂ _ ?_ (ih _ _)
      cases hp : ob.passed with
      | false =>
        have h2 : ¬ ob.x - sp * f + ob.width < dinoX := fun hlt =>
          hcond ⟨hp, hlt⟩
        simp [hp, h2]
      | true => simp [hp]

lemma moveMark_cleared (cel : Bool) (sp f : ℚ) (l : List Obstacle) (c lp : ℕ) :
    (moveMark cel sp f l c lp).2.1 =
      c + l.countP (fun ob => !ob.passed && decide (ob.x - sp * f + ob.width < dinoX)) := by
  induction l generalizing c lp with
  | nil => simp [moveMark]
  | cons ob rest ih =>
    simp only [moveMark, List.countP_cons]
    split
    · rename_i hcond
      have h1 : ob.passed = false := hcond.1
      have h2 : ob.x - sp * f + ob.width < dinoX := hcond.2
      rw [ih]
      simp [h1, h2]
      omega
    · rename_i hcond
      cases hp : ob.passed with
      | false =>
        have h2 : ¬ ob.x - sp * f + ob.width < dinoX := fun hlt =>
          hcond ⟨hp, hlt⟩
        rw [ih]
        simp [hp, h2]
      | true =>
        rw [ih]
        simp [hp]

/-- Claim C9: in every DinoPhysics.step from any state, (i) each obstacle's
passed flag is monotone — an already-passed obstacle stays passed, so the
false-to-true transition happens at most once in an obstacle's lifetime;
(ii) the cumulative obstaclesCleared counter is incremented by exactly one
per obstacle whose flag transitions this call (the count of newly passed
obstacles); (iii) obstacles are removed from the live list only from the
front and only when their trailing edge x + width is strictly negative. -/
theorem obstacle_pass_once_cull (cel : Bool) (input : StepInput) (frames : ℚ)
    (r : Rand) (s : PhysState) :
    ∃ removed : List Obstacle,
      (spawnPhase cel (max 0 frames) r s).1.map (moveOb (stepSpeed s) (max 0 frames))
          = removed ++ (physStep cel input frames r s).2.obstacles ∧
      (∀ ob ∈ removed, ob.x + ob.width < 0) ∧
      (∀ i : ℕ, ((spawnPhase cel (max 0 frames) r s).1.get? i).map Obstacle.passed = some true →
        (((spawnPhase cel (max 0 frames) r s).1.map
            (moveOb (stepSpeed s) (max 0 frames))).get? i).map Obstacle.passed = some true) ∧
      (physStep cel input frames r s).2.obstaclesCleared =
        s.obstaclesCleared +
          (spawnPhase cel (max 0 frames) r s).1.countP (newlyPassed s frames) := by
  set f := max 0 frames with hf
  set sp := (spawnPhase cel f r s).1 with hsp
  set moved := sp.map (moveOb (stepSpeed s) f) with hmoved
  have hmm : (moveMark cel (stepSpeed s) f sp s.obstaclesCleared s.letterProgress).1 = moved :=
    moveMark_fst cel (stepSpeed s) f sp s.obstaclesCleared s.letterProgress
  have hobs : (physStep cel input frames r s).2.obstacles =
      moved.dropWhile (fun ob => decide (ob.x + ob.width < 0)) := by
    show (moveMark cel (stepSpeed s) f sp s.obstaclesCleared s.letterProgress).1.dropWhile
        (fun ob => decide (ob.x + ob.width < 0)) = _
    rw [hmm]
  refine ⟨moved.takeWhile (fun ob => decide (ob.x + ob.width < 0)), ?_, ?_, ?_, ?_⟩
  · rw [hobs]
    exact (List.takeWhile_append_dropWhile
      (p := fun ob => decide (ob.x + ob.width < 0)) (l := moved)).symm
  · intro ob hob
    have := List.mem_takeWhile_imp hob
    exact of_decide_eq_true this
  · intro i hi
    rw [hmoved, List.get?_map]
    cases hg : sp.get? i with
    | none => rw [hg] at hi; simp at hi
    | some ob =>
      rw [hg] at hi
      have hp : ob.passed = true := by simpa using hi
      simp [moveOb, hp]
  · have : (physStep cel input frames r s).2.obstaclesCleared =
        (moveMark cel (stepSpeed s) f sp s.obstaclesCleared s.letterProgress).2.1 := rfl
    rw [this, moveMark_cleared]
    rfl

/-- Witness for claim C9 at a concrete step from the reset state. -/
theorem obstacle_pass_once_cull_witness :
    ∃ removed : List Obstacle,
      (spawnPhase false (max 0 1) ⟨0, 0, 0⟩ resetState).1.map
          (moveOb (stepSpeed resetState) (max 0 1))
          = removed ++ (physStep false ⟨false, false⟩ 1 ⟨0, 0, 0⟩ resetState).2.obstacles ∧
      (∀ ob ∈ removed, ob.x + ob.width < 0) ∧
      (∀ i : ℕ, ((spawnPhase false (max 0 1) ⟨0, 0, 0⟩ resetState).1.get? i).map
            Obstacle.passed = some true →
        (((spawnPhase false (max 0 1) ⟨0, 0, 0⟩ resetState).1.map
            (moveOb (stepSpeed resetState) (max 0 1))).get? i).map Obstacle.passed = some true) ∧
      (physStep false ⟨false, false⟩ 1 ⟨0, 0, 0⟩ resetState).2.obstaclesCleared =
        resetState.obstaclesCleared +
          (spawnPhase false (max 0 1) ⟨0, 0, 0⟩ resetState).1.countP (newlyPassed resetState 1) :=
  obstacle_pass_once_cull false ⟨false, false⟩ 1 ⟨0, 0, 0⟩ resetState

/-! ### Environment adapter (class DinoEnv) -/

inductive Action where
  | idle
  | jump
  | duck
deriving DecidableEq, Repr

/-- Reward shaping constants of DinoEnv. -/
def surviveReward : ℚ := 3 / 1000

def progressScale : ℚ := 5 / 10000

def clearReward : ℚ := 2

def jumpProximityBonus : ℚ := 5 / 100

def jumpFarPenalty : ℚ := -(2 / 100)

def jumpProximityThreshold : ℚ := 25 / 100

/-- buildObservationFromPhysics: the fixed-size observation vector
[yRel, speedNorm, distNorm, ttiNorm, width, height, grounded]. -/
def buildObservationFromPhysics (p : PhysState) : List ℚ :=
  let yRel := p.dinoY / groundY
  let speedNorm := p.speed / (baseSpeed + 8)
  let nearest := p.obstacles.find? (fun ob => decide (dinoX < ob.x + ob.width))
  let feats :=
    match nearest with
    | none => ((1 : ℚ), (1 : ℚ), (0 : ℚ), (0 : ℚ))
    | some ob =>
      let distPx := max 0 (ob.x - dinoX)
      let distNorm := max 0 (min 1 (distPx / worldWidth))
      let ttiFrames := distPx / max (1 / 1000000) p.speed
      let ttiNorm := max 0 (min 1 (ttiFrames / 60))
      (distNorm, ttiNorm, max 0 (min 1 (ob.width / 60)), max 0 (min 1 (ob.height / 60)))
  let grounded : ℚ := if groundY ≤ p.dinoY then 1 else 0
  [yRel, speedNorm, feats.1, feats.2.1, feats.2.2.1, feats.2.2.2, grounded]

/-- The pre-step proximity flag of DinoEnv.step: the first obstacle whose
trailing edge is still ahead of the actor is within the normalized
proximity threshold. -/
def nearAheadFlag (p : PhysState) : Bool :=
  match p.obstacles.find? (fun ob => decide (dinoX < ob.x + ob.width)) with
  | none => false
  | some ob => decide (max 0 (min 1 ((ob.x - dinoX) / worldWidth)) < jumpProximityThreshold)

/-- DinoEnv constructor: frameSkip = Math.max(1, Math.floor(frameSkip ?? 2)).
This computation is identical in both versions of the adapter in the
repository. -/
def computeFrameSkip (fsOpt : Option ℚ) : ℤ :=
  max 1 ⌊fsOpt.getD 2⌋

structure EnvState where
  phys : PhysState
  lastScore : ℤ
  terminated : Bool
  frameSkip : ℤ
deriving DecidableEq, Repr

/-- DinoEnv constructor: a fresh (not yet reset) DinoPhysics instance and
the clamped frame-skip count.  Construction is a total function: it never
fails, whatever the options. -/
def mkDinoEnv (fsOpt : Option ℚ) : EnvState :=
  { phys := initPhysState, lastScore := 0, terminated := false,
    frameSkip := computeFrameSkip fsOpt }

/-- DinoEnv.reset(). -/
def envReset (e : EnvState) : List ℚ × EnvState :=
  (buildObservationFromPhysics resetState,
   { e with phys := resetState, lastScore := 0, terminated := false })

/-- The per-frame StepInput built by DinoEnv.step: jump only on the first
repetition of the frame-skip loop. -/
def envInput (a : Action) (k : ℕ) : StepInput :=
  { jump := decide (a = Action.jump) && decide (k = 0),
    duck := decide (a = Action.duck) }

/-- The frame-skip loop of DinoEnv.step: run the physics `n` more frames
starting at repetition index `k`, stopping early when a frame reports done.
Returns the final physics state, the done flag, and the number of physics
steps actually executed. -/
def runFrames (a : Action) (r : ℕ → Rand) : ℕ → ℕ → PhysState → PhysState × Bool × ℕ
  | _, 0, s => (s, false, 0)
  | k, n + 1, s =>
    let one := physStep false (envInput a k) 1 (r k) s
    if one.1.done then (one.2, true, 1)
    else
      let rest := runFrames a r (k + 1) n one.2
      (rest.1, rest.2.1, rest.2.2 + 1)

/-- The physics run performed by one DinoEnv.step call. -/
def envRun (r : ℕ → Rand) (a : Action) (e : EnvState) : PhysState × Bool × ℕ :=
  runFrames a r 0 e.frameSkip.toNat e.phys

structure StepOut where
  obs : List ℚ
  reward : ℚ
  done : Bool
  score : ℤ
deriving DecidableEq, Repr

/-- The non-terminated branch of DinoEnv.step(action): repeat the physics
step with frame skip, then compute the shaped reward (survival + progress +
clear bonus + jump-proximity term, overridden by the terminal penalty). -/
def envStepActive (r : ℕ → Rand) (a : Action) (e : EnvState) : StepOut × EnvState :=
    let preCleared := e.phys.obstaclesCleared
    let near := nearAheadFlag e.phys
    let run := envRun r a e
    let s2 := run.1
    let done := run.2.1
    let obs := buildObservationFromPhysics s2
    let score := s2.scoreInt
    let deltaScore := max 0 (score - e.lastScore)
    let clearedDelta : ℤ := max 0 ((s2.obstaclesCleared : ℤ) - (preCleared : ℤ))
    let reward1 := surviveReward * (e.frameSkip : ℚ) + progressScale * (deltaScore : ℚ)
    let reward2 := reward1 + clearReward * (clearedDelta : ℚ)
    let reward3 := if a = Action.jump then
        reward2 + (if near then jumpProximityBonus else jumpFarPenalty)
      else reward2
    let reward := if done then -1 else reward3
    ({ obs := obs, reward := reward, done := done, score := score },
     { phys := s2, lastScore := score,
       terminated := if done then true else e.terminated,
       frameSkip := e.frameSkip })

/-- DinoEnv.step(action): short-circuits (done, zero reward) when called
after a terminal result without an intervening reset(). -/
def envStep (r : ℕ → Rand) (a : Action) (e : EnvState) : StepOut × EnvState :=
  if e.terminated then
    ({ obs := buildObservationFromPhysics e.phys, reward := 0, done := true,
       score := e.phys.scoreInt }, e)
  else envStepActive r a e

lemma envStep_not_terminated (r : ℕ → Rand) (a : Action) (e : EnvState)
    (hterm : e.terminated = false) : envStep r a e = envStepActive r a e := by
  rw [envStep, if_neg (by simp [hterm])]

/-! ### Claim C10: frame-skip clamping -/

lemma runFrames_count_pos (a : Action) (r : ℕ → Rand) (k n : ℕ) (s : PhysState)
    (hn : 0 < n) : 1 ≤ (runFrames a r k n s).2.2 := by
  cases n with
  | zero => exact absurd hn (by omega)
  | succ m =>
    simp only [runFrames]
    split
    · exact le_refl 1
    · exact Nat.succ_le_succ (Nat.zero_le _)

/-- Claim C10: for every EnvOptions input (frameSkip zero, negative,
fractional, or absent), DinoEnv construction succeeds (it is a total
function) and yields frameSkip = max(1, floor(frameSkip ?? 2)) ≥ 1, so every
non-terminated step() call executes at least one underlying physics step. -/
theorem frameSkip_clamped (fsOpt : Option ℚ) (a : Action) (r : ℕ → Rand) :
    1 ≤ (mkDinoEnv fsOpt).frameSkip ∧
      (mkDinoEnv fsOpt).frameSkip = max 1 ⌊fsOpt.getD 2⌋ ∧
      1 ≤ (envRun r a (mkDinoEnv fsOpt)).2.2 := by
  have h1 : (1 : ℤ) ≤ computeFrameSkip fsOpt := le_max_left _ _
  have h2 : 0 < (computeFrameSkip fsOpt).toNat := by omega
  exact ⟨h1, rfl,
    runFrames_count_pos a r 0 ((computeFrameSkip fsOpt).toNat) initPhysState h2⟩

/-- Witness for claim C10 at a negative fractional frameSkip option. -/
theorem frameSkip_clamped_witness :
    1 ≤ (mkDinoEnv (some (-(3 / 2)))).frameSkip ∧
      (mkDinoEnv (some (-(3 / 2)))).frameSkip = max 1 ⌊(some (-(3 / 2)) : Option ℚ).getD 2⌋ ∧
      1 ≤ (envRun (fun _ => ⟨0, 0, 0⟩) Action.idle (mkDinoEnv (some (-(3 / 2))))).2.2 :=
  frameSkip_clamped (some (-(3 / 2))) Action.idle (fun _ => ⟨0, 0, 0⟩)

/-! ### Claim C3: shaped reward decomposition -/

/-- A degenerate randomness stream (all Math.random() draws return 0),
used to evaluate concrete runs. -/
def zeroRand : ℕ → Rand := fun _ => ⟨0, 0, 0⟩

/-- Claim C3: every non-terminated DinoEnv.step(action) call returns, when it
does not end in termination, the sum of the survival term scaled by the
frame-skip count, a term proportional to the clamped non-negative score
delta, a fixed bonus per obstacle newly marked cleared during this call, and
a proximity-timing term added only for Jump (the bonus when the pre-step
proximity flag was set, the penalty otherwise); a call that ends in
termination returns exactly the terminal penalty -1.  Moreover, whenever the
proximity flag is set and every passed obstacle lies behind the actor (an
invariant of reachable states), an unpassed obstacle is within the
normalized proximity threshold. -/
theorem envStep_reward_shape (r : ℕ → Rand) (a : Action) (e : EnvState)
    (hterm : e.terminated = false) :
    ((envStep r a e).1.done = true → (envStep r a e).1.reward = -1) ∧
      ((envStep r a e).1.done = false →
        (envStep r a e).1.reward =
          surviveReward * (e.frameSkip : ℚ)
            + progressScale * ((max 0 ((envRun r a e).1.scoreInt - e.lastScore) : ℤ) : ℚ)
            + clearReward *
                ((max 0 (((envRun r a e).1.obstaclesCleared : ℤ)
                  - (e.phys.obstaclesCleared : ℤ)) : ℤ) : ℚ)
            + (if a = Action.jump then
                 (if nearAheadFlag e.phys then jumpProximityBonus else jumpFarPenalty)
               else 0)) ∧
      (nearAheadFlag e.phys = true →
        (∀ ob ∈ e.phys.obstacles, ob.passed = true → ob.x + ob.width < dinoX) →
        ∃ ob ∈ e.phys.obstacles, ob.passed = false ∧
          max 0 (min 1 ((ob.x - dinoX) / worldWidth)) < jumpProximityThreshold) := by
  have hE := envStep_not_terminated r a e hterm
  refine ⟨?_, ?_, ?_⟩
  · intro hd
    rw [hE] at hd ⊢
    simp only [envStepActive] at hd ⊢
    rw [if_pos hd]
  · intro hd
    rw [hE] at hd ⊢
    simp only [envStepActive] at hd ⊢
    rw [if_neg (by simp [hd])]
    by_cases hj : a = Action.jump
    · rw [if_pos hj, if_pos hj]
    · rw [if_neg hj, if_neg hj]
      ring
  · intro hn hbehind
    unfold nearAheadFlag at hn
    cases hfind : e.phys.obstacles.find? (fun ob => decide (dinoX < ob.x + ob.width)) with
    | none => rw [hfind] at hn; simp at hn
    | some ob =>
      rw [hfind] at hn
      have hmem := List.mem_of_find?_eq_some hfind
      have hpred := List.find?_some hfind
      have hahead : dinoX < ob.x + ob.width := by simpa using hpred
      have hdist : max 0 (min 1 ((ob.x - dinoX) / worldWidth)) < jumpProximityThreshold :=
        of_decide_eq_true hn
      refine ⟨ob, hmem, ?_, hdist⟩
      cases hp : ob.passed with
      | false => rfl
      | true => exact absurd (hbehind ob hmem hp) (lt_asymm hahead)

/-- Witness for claim C3: a Jump step on a freshly constructed environment
with frame skip 1. -/
theorem envStep_reward_shape_witness :
    (mkDinoEnv (some 1)).terminated = false ∧
      (((envStep zeroRand Action.jump (mkDinoEnv (some 1))).1.done = true →
          (envStep zeroRand Action.jump (mkDinoEnv (some 1))).1.reward = -1) ∧
        ((envStep zeroRand Action.jump (mkDinoEnv (some 1))).1.done = false →
          (envStep zeroRand Action.jump (mkDinoEnv (some 1))).1.reward =
            surviveReward * ((mkDinoEnv (some 1)).frameSkip : ℚ)
              + progressScale *
                  ((max 0 ((envRun zeroRand Action.jump (mkDinoEnv (some 1))).1.scoreInt
                    - (mkDinoEnv (some 1)).lastScore) : ℤ) : ℚ)
              + clearReward *
                  ((max 0 (((envRun zeroRand Action.jump (mkDinoEnv (some 1))).1.obstaclesCleared : ℤ)
                    - ((mkDinoEnv (some 1)).phys.obstaclesCleared : ℤ)) : ℤ) : ℚ)
              + (if Action.jump = Action.jump then
                   (if nearAheadFlag (mkDinoEnv (some 1)).phys then jumpProximityBonus
                    else jumpFarPenalty)
                 else 0)) ∧
        (nearAheadFlag (mkDinoEnv (some 1)).phys = true →
          (∀ ob ∈ (mkDinoEnv (some 1)).phys.obstacles, ob.passed = true →
            ob.x + ob.width < dinoX) →
          ∃ ob ∈ (mkDinoEnv (some 1)).phys.obstacles, ob.passed = false ∧
            max 0 (min 1 ((ob.x - dinoX) / worldWidth)) < jumpProximityThreshold)) :=
  ⟨rfl, envStep_reward_shape zeroRand Action.jump (mkDinoEnv (some 1)) rfl⟩

/-! ### Experience buffer (class ReplayBuffer) -/

structure Transition where
  obs : List ℚ
  action : ℕ
  reward : ℚ
  nextObs : List ℚ
  done : Bool
deriving DecidableEq, Repr

structure ReplayBuffer where
  capacity : ℤ
  buf : List Transition
  idx : ℕ
deriving DecidableEq, Repr

/-- The ReplayBuffer constructor: it stores the capacity without any
validation and never fails. -/
def mkReplayBuffer (capacity : ℤ) : ReplayBuffer :=
  { capacity := capacity, buf := [], idx := 0 }

/-- ReplayBuffer.add: append below capacity, otherwise overwrite the slot at
the rotating write index.  Faithful for capacity > 0 (the regime the claims
exercise); for capacity ≤ 0 the JavaScript source degenerates to a NaN
index, which has no rational counterpart. -/
def ReplayBuffer.add (B : ReplayBuffer) (t : Transition) : ReplayBuffer :=
  if (B.buf.length : ℤ) < B.capacity then
    { B with buf := B.buf ++ [t], idx := (((B.idx : ℤ) + 1) % B.capacity).toNat }
  else
    { B with buf := B.buf.set B.idx t, idx := (((B.idx : ℤ) + 1) % B.capacity).toNat }

/-- ReplayBuffer.size(). -/
def ReplayBuffer.size (B : ReplayBuffer) : ℕ := B.buf.length

/-- The index selected by one Math.random() draw in ReplayBuffer.sample:
(r * length) | 0, i.e. the floor for non-negative draws. -/
def sampleIdx (len : ℕ) (q : ℚ) : ℕ := (⌊q * (len : ℚ)⌋).toNat

/-- ReplayBuffer.sample(n), with one rational draw per sampled element.  An
out-of-range access of the backing array yields JavaScript undefined,
modelled as `none`. -/
def ReplayBuffer.sample (B : ReplayBuffer) (rs : List ℚ) : List (Option Transition) :=
  rs.map (fun q => B.buf.get? (sampleIdx B.buf.length q))

/-- Sequential addition of a list of transitions. -/
def addAll (B : ReplayBuffer) (ts : List Transition) : ReplayBuffer :=
  ts.foldl ReplayBuffer.add B

lemma addAll_append_single (B : ReplayBuffer) (l : List Transition) (t : Transition) :
    addAll B (l ++ [t]) = (addAll B l).add t := by
  simp [addAll, List.foldl_append]

lemma idx_step_mod (a c : ℕ) : (((a % c : ℕ) : ℤ) + 1) % (c : ℤ) = (((a + 1) % c : ℕ) : ℤ) := by
  rw [show (((a % c : ℕ) : ℤ) + 1) = (((a % c) + 1 : ℕ) : ℤ) by push_cast; ring,
    ← Int.natCast_mod, Nat.mod_add_mod]

/-- Rotating a one-slot overwrite: writing at index j and rotating one step
further exposes the overwritten content at the end. -/
lemma set_rotate_succ {α : Type} (l : List α) (j : ℕ) (t : α) (hj : j < l.length) :
    (l.set j t).rotate ((j + 1) % l.length) = (l.rotate j).tail ++ [t] := by
  have hset : l.set j t = l.take j ++ t :: l.drop (j + 1) :=
    List.set_eq_take_cons_drop t hj
  have htakelen : (l.take j).length = j := by
    rw [List.length_take]
    omega
  obtain ⟨x, xs, hx⟩ : ∃ x xs, l.drop j = x :: xs := by
    cases hd : l.drop j with
    | nil =>
      have := List.drop_eq_nil_iff_le.mp hd
      omega
    | cons x xs => exact ⟨x, xs, rfl⟩
  have hxs : xs = l.drop (j + 1) := by
    have h2 := List.tail_drop l j
    rw [hx] at h2
    simpa using h2
  have hrhs : (l.rotate j).tail ++ [t] = l.drop (j + 1) ++ (l.take j ++ [t]) := by
    rw [List.rotate_eq_drop_append_take hj.le, hx, hxs]
    simp
  rcases Nat.lt_or_ge (j + 1) l.length with hlt | hge
  · have hmod : (j + 1) % l.length = j + 1 := Nat.mod_eq_of_lt hlt
    have hset_drop : (l.set j t).drop (j + 1) = l.drop (j + 1) := by
      rw [hset, List.drop_append_eq_append_drop,
        List.drop_eq_nil_of_le (show (l.take j).length ≤ j + 1 by rw [htakelen]; omega),
        htakelen]
      have h1 : j + 1 - j = 1 := by omega
      rw [h1]
      simp
    have hset_take : (l.set j t).take (j + 1) = l.take j ++ [t] := by
      rw [hset, List.take_append_eq_append_take,
        List.take_of_length_le (show (l.take j).length ≤ j + 1 by rw [htakelen]; omega),
        htakelen]
      have h1 : j + 1 - j = 1 := by omega
      rw [h1]
      simp
    rw [hmod, List.rotate_eq_drop_append_take (show j + 1 ≤ (l.set j t).length by
        rw [List.length_set]; omega),
      hset_drop, hset_take, hrhs]
  · have heq : j + 1 = l.length := by omega
    have hmod : (j + 1) % l.length = 0 := by
      rw [heq, Nat.mod_self]
    rw [hmod, List.rotate_zero, hrhs, hset]
    have hdropnil : l.drop (j + 1) = [] := List.drop_eq_nil_of_le (by omega)
    rw [hdropnil]
    simp

/-- The reachable-state invariant of a capacity-c buffer after its first n
adds: occupancy is min n c, the write index is n mod c, and reading the
buffer starting at the write index recovers the most recent min n c
transitions in insertion order. -/
lemma addAll_take_inv (c : ℕ) (hc : 0 < c) (ts : List Transition) :
    ∀ n, n ≤ ts.length →
      (addAll (mkReplayBuffer (c : ℤ)) (ts.take n)).buf.length = min n c ∧
      (addAll (mkReplayBuffer (c : ℤ)) (ts.take n)).idx = n % c ∧
      (addAll (mkReplayBuffer (c : ℤ)) (ts.take n)).capacity = (c : ℤ) ∧
      (addAll (mkReplayBuffer (c : ℤ)) (ts.take n)).buf.rotate
          ((addAll (mkReplayBuffer (c : ℤ)) (ts.take n)).idx) = (ts.take n).drop (n - c) := by
  intro n
  induction n with
  | zero =>
    intro _
    refine ⟨by simp [addAll, mkReplayBuffer], by simp [addAll, mkReplayBuffer, Nat.zero_mod],
      by simp [addAll, mkReplayBuffer], ?_⟩
    simp [addAll, mkReplayBuffer]
  | succ n ih =>
    intro hn1
    have hn : n ≤ ts.length := by omega
    have hnlt : n < ts.length := by omega
    obtain ⟨hL, hI, hC, hR⟩ := ih hn
    have htake : ts.take (n + 1) = ts.take n ++ [ts[n]] :=
      (List.take_concat_get' ts n hnlt).symm
    rw [htake, addAll_append_single]
    set B := addAll (mkReplayBuffer (c : ℤ)) (ts.take n) with hB
    have htakelen : (ts.take n).length = n := by
      rw [List.length_take]
      omega
    have hidx : (((B.idx : ℤ) + 1) % B.capacity).toNat = (n + 1) % c := by
      rw [hI, hC, idx_step_mod]
      omega
    rcases Nat.lt_or_ge n c with hlt | hge
    · -- below capacity: push branch
      have hbuflen : B.buf.length = n := by omega
      have hcond : (B.buf.length : ℤ) < B.capacity := by
        rw [hC]
        omega
      have hbufeq : B.buf = ts.take n := by
        have hrot := hR
        rw [hI, Nat.mod_eq_of_lt hlt, Nat.sub_eq_zero_of_le hlt.le, List.drop_zero] at hrot
        have hrot2 : B.buf.rotate B.buf.length = ts.take n := by
          rw [hbuflen]
          exact hrot
        rwa [List.rotate_length] at hrot2
      rw [ReplayBuffer.add, if_pos hcond]
      refine ⟨?_, ?_, ?_, ?_⟩
      · simp only [List.length_append, List.length_singleton]
        omega
      · exact hidx
      · exact hC
      · simp only [hidx]
        rw [hbufeq, List.take_concat_get', Nat.sub_eq_zero_of_le (by omega), List.drop_zero]
        rcases Nat.lt_or_ge (n + 1) c with h2 | h2
        · rw [Nat.mod_eq_of_lt h2]
          have hlen1 : (ts.take (n + 1)).length = n + 1 := by
            rw [List.length_take]
            omega
          have h3 := List.rotate_length (ts.take (n + 1))
          rw [hlen1] at h3
          exact h3
        · have h4 : n + 1 = c := by omega
          rw [h4, Nat.mod_self, List.rotate_zero]
    · -- at capacity: overwrite branch
      have hbuflen : B.buf.length = c := by omega
      have hcond : ¬ (B.buf.length : ℤ) < B.capacity := by
        rw [hC]
        omega
      have hjlt : B.idx < B.buf.length := by
        rw [hI, hbuflen]
        exact Nat.mod_lt _ hc
      rw [ReplayBuffer.add, if_neg hcond]
      refine ⟨?_, ?_, ?_, ?_⟩
      · simp only [List.length_set]
        omega
      · exact hidx
      · exact hC
      · simp only [hidx]
        have hamt : (n + 1) % c = (B.idx + 1) % B.buf.length := by
          rw [hbuflen, hI, Nat.mod_add_mod]
        rw [hamt, set_rotate_succ B.buf B.idx (ts[n]) hjlt, hR, List.tail_drop]
        have h1 : n + 1 - c = n - c + 1 := by omega
        rw [h1, List.drop_append_of_le_length (by rw [htakelen]; omega)]

/-- A placeholder transition, used to build concrete witnesses. -/
def tDummy (i : ℕ) : Transition :=
  { obs := [], action := i, reward := 0, nextObs := [], done := false }

/-- Claim C2: after adding c + k transitions (c > 0, k > 0) to a freshly
constructed ReplayBuffer of capacity c, size() equals c, the rotating write
index equals (c + k) mod c, and reading the buffer starting at the write
index yields exactly the most recent c transitions in insertion order (the
oldest k have been overwritten). -/
theorem replay_circular_overwrite (c k : ℕ) (ts : List Transition)
    (hc : 0 < c) (hk : 0 < k) (hlen : ts.length = c + k) :
    (addAll (mkReplayBuffer (c : ℤ)) ts).size = c ∧
      (addAll (mkReplayBuffer (c : ℤ)) ts).idx = (c + k) % c ∧
      (addAll (mkReplayBuffer (c : ℤ)) ts).buf.rotate
          ((addAll (mkReplayBuffer (c : ℤ)) ts).idx) = ts.drop k := by
  obtain ⟨hL, hI, _, hR⟩ := addAll_take_inv c hc ts ts.length le_rfl
  rw [List.take_length] at hL hI hR
  refine ⟨?_, ?_, ?_⟩
  · show (addAll (mkReplayBuffer (c : ℤ)) ts).buf.length = c
    rw [hL]
    omega
  · rw [hI, hlen]
  · rw [hR, hlen]
    congr 1
    omega

/-- Witness for claim C2: capacity 2, three adds; the buffer holds the last
two transitions, the oldest overwritten. -/
theorem replay_circular_overwrite_witness :
    (0 < 2 ∧ 0 < 1 ∧ ([tDummy 0, tDummy 1, tDummy 2] : List Transition).length = 2 + 1) ∧
      ((addAll (mkReplayBuffer ((2 : ℕ) : ℤ)) [tDummy 0, tDummy 1, tDummy 2]).size = 2 ∧
        (addAll (mkReplayBuffer ((2 : ℕ) : ℤ)) [tDummy 0, tDummy 1, tDummy 2]).idx = (2 + 1) % 2 ∧
        (addAll (mkReplayBuffer ((2 : ℕ) : ℤ)) [tDummy 0, tDummy 1, tDummy 2]).buf.rotate
            ((addAll (mkReplayBuffer ((2 : ℕ) : ℤ)) [tDummy 0, tDummy 1, tDummy 2]).idx)
          = [tDummy 0, tDummy 1, tDummy 2].drop 1) :=
  ⟨⟨by decide, by decide, by decide⟩,
   replay_circular_overwrite 2 1 [tDummy 0, tDummy 1, tDummy 2]
     (by decide) (by decide) (by decide)⟩

/-! ### Claim C7: sampling behaviour -/

/-- Counterexample to claim C7 as stated: sampling a freshly constructed
(empty) buffer does not raise any error; it silently returns a list of
undefined entries (JavaScript undefined, modelled as none), because the
backing array is indexed out of range. -/
theorem sample_empty_silently_undefined :
    (mkReplayBuffer (10 : ℤ)).size = 0 ∧
      (mkReplayBuffer (10 : ℤ)).sample [1 / 2] = [none] := by
  constructor
  · rfl
  · rfl

/-- Claim C7 (amended): sampling an empty buffer returns undefined entries
(no error is raised); when occupancy m is positive, each in-range draw
q ∈ [0, 1) selects the element at index floor(q·m) < m, and a draw selects
index i exactly when q lies in the interval [i/m, (i+1)/m) — the intervals
partition [0, 1) into m pieces of equal width, i.e. sampling is uniform with
replacement. -/
theorem sample_uniform_with_replacement (B : ReplayBuffer) (rs : List ℚ) (i : ℕ) (q : ℚ)
    (h0 : 0 ≤ q) (hlen : 0 < B.buf.length) :
    (B.buf = [] → B.sample rs = rs.map (fun _ => none)) ∧
      (q < 1 → sampleIdx B.buf.length q < B.buf.length) ∧
      (sampleIdx B.buf.length q = i ↔
        (i : ℚ) / (B.buf.length : ℚ) ≤ q ∧ q < ((i : ℚ) + 1) / (B.buf.length : ℚ)) := by
  have hl0 : (0 : ℚ) < (B.buf.length : ℚ) := by exact_mod_cast hlen
  have hge : 0 ≤ ⌊q * (B.buf.length : ℚ)⌋ :=
    Int.floor_nonneg.mpr (mul_nonneg h0 hl0.le)
  refine ⟨?_, ?_, ?_⟩
  · intro hB
    simp [ReplayBuffer.sample, hB]
  · intro h1
    have hx : q * (B.buf.length : ℚ) < (B.buf.length : ℚ) := by
      calc q * (B.buf.length : ℚ) < 1 * (B.buf.length : ℚ) :=
            mul_lt_mul_of_pos_right h1 hl0
        _ = (B.buf.length : ℚ) := one_mul _
    have hfl : ⌊q * (B.buf.length : ℚ)⌋ < (B.buf.length : ℤ) := by
      rw [Int.floor_lt]
      exact_mod_cast hx
    unfold sampleIdx
    omega
  · unfold sampleIdx
    constructor
    · intro hidx
      have hfl : ⌊q * (B.buf.length : ℚ)⌋ = (i : ℤ) := by omega
      obtain ⟨hlo, hhi⟩ := Int.floor_eq_iff.mp hfl
      constructor
      · rw [div_le_iff hl0]
        exact_mod_cast hlo
      · rw [lt_div_iff hl0]
        push_cast
        exact_mod_cast hhi
    · rintro ⟨hlo, hhi⟩
      rw [div_le_iff hl0] at hlo
      rw [lt_div_iff hl0] at hhi
      have hfl : ⌊q * (B.buf.length : ℚ)⌋ = (i : ℤ) := by
        rw [Int.floor_eq_iff]
        constructor
        · exact_mod_cast hlo
        · push_cast
          exact_mod_cast hhi
      omega

/-- Witness for claim C7 (amended), on a buffer holding three transitions
with the draw 1/2 selecting index 1. -/
theorem sample_uniform_with_replacement_witness :
    (0 : ℚ) ≤ 1 / 2 ∧
      0 < (addAll (mkReplayBuffer (5 : ℤ)) [tDummy 0, tDummy 1, tDummy 2]).buf.length ∧
      (((addAll (mkReplayBuffer (5 : ℤ)) [tDummy 0, tDummy 1, tDummy 2]).buf = [] →
          (addAll (mkReplayBuffer (5 : ℤ)) [tDummy 0, tDummy 1, tDummy 2]).sample [1 / 2]
            = [(1 : ℚ) / 2].map (fun _ => none)) ∧
        ((1 : ℚ) / 2 < 1 →
          sampleIdx (addAll (mkReplayBuffer (5 : ℤ)) [tDummy 0, tDummy 1, tDummy 2]).buf.length (1 / 2)
            < (addAll (mkReplayBuffer (5 : ℤ)) [tDummy 0, tDummy 1, tDummy 2]).buf.length) ∧
        (sampleIdx (addAll (mkReplayBuffer (5 : ℤ)) [tDummy 0, tDummy 1, tDummy 2]).buf.length (1 / 2) = 1 ↔
          ((1 : ℕ) : ℚ) / ((addAll (mkReplayBuffer (5 : ℤ)) [tDummy 0, tDummy 1, tDummy 2]).buf.length : ℚ)
              ≤ 1 / 2 ∧
            (1 : ℚ) / 2 < (((1 : ℕ) : ℚ) + 1) /
              ((addAll (mkReplayBuffer (5 : ℤ)) [tDummy 0, tDummy 1, tDummy 2]).buf.length : ℚ))) :=
  ⟨by norm_num, by decide,
   sample_uniform_with_replacement
     (addAll (mkReplayBuffer (5 : ℤ)) [tDummy 0, tDummy 1, tDummy 2]) [1 / 2] 1 (1 / 2)
     (by norm_num) (by decide)⟩

/-! ### Claim C8: constructor validation -/

/-- The DQN constructor options (all numeric configuration fields of
DQNOptions). -/
structure DQNOptions where
  obsSize : ℤ
  actionSize : ℤ
  hiddenSizes : Option (List ℤ)
  gamma : Option ℚ
  lr : Option ℚ
  batchSize : Option ℤ
  updateEvery : Option ℤ
  targetSync : Option ℤ
  tau : Option ℚ
  warmup : Option ℤ
  replaySize : Option ℤ
deriving DecidableEq, Repr

/-- The configuration state a DQN instance holds after construction. -/
structure DQNConfig where
  obsSize : ℤ
  actionSize : ℤ
  hiddenSizes : List ℤ
  gamma : ℚ
  lr : ℚ
  batchSize : ℤ
  updateEvery : ℤ
  targetSync : ℤ
  tau : ℚ
  warmup : ℤ
  replay : ReplayBuffer
deriving DecidableEq, Repr

/-- The DQN constructor: defaults are filled in, nothing is validated, and
construction never fails. -/
def mkDQN (o : DQNOptions) : DQNConfig :=
  { obsSize := o.obsSize, actionSize := o.actionSize,
    hiddenSizes := o.hiddenSizes.getD [128, 128],
    gamma := o.gamma.getD (99 / 100),
    lr := o.lr.getD (1 / 1000),
    batchSize := o.batchSize.getD 128,
    updateEvery := o.updateEvery.getD 4,
    targetSync := o.targetSync.getD 2000,
    tau := o.tau.getD 0,
    warmup := o.warmup.getD 1000,
    replay := mkReplayBuffer (o.replaySize.getD 100000) }

/-- A configuration with a negative batch size (and default everything
else), used to exhibit the absence of construction-time validation. -/
def badDQNOptions : DQNOptions :=
  { obsSize := 7, actionSize := 2, hiddenSizes := none, gamma := none, lr := none,
    batchSize := some (-5), updateEvery := none, targetSync := none, tau := none,
    warmup := none, replaySize := none }

/-- Counterexample to claim C8 as stated: a ReplayBuffer with capacity 0 and
a DQN with batch size -5 are both constructed successfully (the constructors
are total functions with no rejection path); the invalid values are stored
verbatim. -/
theorem constructors_accept_nonpositive :
    (mkReplayBuffer (0 : ℤ)).capacity = 0 ∧ (mkDQN badDQNOptions).batchSize = -5 :=
  ⟨rfl, rfl⟩

/-- Claim C8 (amended): the ReplayBuffer and DQN constructors perform no
validation at all — every configuration, including non-positive capacity
and batch size, is accepted at construction time and stored unchanged, so
misconfiguration can only surface mid-run. -/
theorem constructors_never_reject (c : ℤ) (o : DQNOptions) :
    (mkReplayBuffer c).capacity = c ∧ (mkReplayBuffer c).buf = [] ∧
      (mkReplayBuffer c).idx = 0 ∧
      (mkDQN o).batchSize = o.batchSize.getD 128 ∧
      (mkDQN o).replay.capacity = o.replaySize.getD 100000 :=
  ⟨rfl, rfl, rfl, rfl, rfl⟩

/-- Witness for claim C8 (amended) at a negative capacity and the negative
batch-size options. -/
theorem constructors_never_reject_witness :
    (mkReplayBuffer (-3)).capacity = -3 ∧ (mkReplayBuffer (-3)).buf = [] ∧
      (mkReplayBuffer (-3)).idx = 0 ∧
      (mkDQN badDQNOptions).batchSize = badDQNOptions.batchSize.getD 128 ∧
      (mkDQN badDQNOptions).replay.capacity = badDQNOptions.replaySize.getD 100000 :=
  constructors_never_reject (-3) badDQNOptions

/-! ### DQN training target (DQN.train minimize closure) -/

/-- Running-maximum scan underlying tf.argMax: keep the first index whose
value is strictly greater than the best seen so far. -/
def argmaxP : List ℚ → ℕ × ℚ → ℕ → ℕ × ℚ
  | [], best, _ => best
  | v :: rest, best, i => argmaxP rest (if best.2 < v then (i, v) else best) (i + 1)

/-- tf.argMax along the action axis: index of the first occurrence of the
maximum (0 on an empty row). -/
def argmaxIdx : List ℚ → ℕ
  | [] => 0
  | v :: rest => (argmaxP rest (0, v) 1).1

/-- tf.oneHot(i, n): length-n row with 1 at position i and 0 elsewhere
(all zeros when i is out of range, as in TensorFlow). -/
def oneHot (i n : ℕ) : List ℚ :=
  (List.range n).map (fun j => if j = i then 1 else 0)

/-- Row-wise tf.mul followed by sum(1): the masked sum used by DQN.train to
pick one Q-value out of a row. -/
def maskedRowSum (q m : List ℚ) : ℚ :=
  (List.zipWith (fun a b => a * b) q m).sum

/-- The online network's value of the action actually taken, computed, as in
the source, by masking the row with a one-hot of the action and summing. -/
def qTaken (online : List ℚ → List ℚ) (n : ℕ) (b : Transition) : ℚ :=
  maskedRowSum (online b.obs) (oneHot b.action n)

/-- The double-estimator learning target of DQN.train: the immediate reward
plus the TARGET network's value of the ONLINE argmax action on the next
observation, scaled by gamma and masked to zero for terminal transitions. -/
def doubleDQNTarget (gamma : ℚ) (online target : List ℚ → List ℚ) (n : ℕ)
    (b : Transition) : ℚ :=
  let nextA := argmaxIdx (online b.nextObs)
  let nextQ := maskedRowSum (target b.nextObs) (oneHot nextA n)
  b.reward + nextQ * gamma * (1 - (if b.done then 1 else 0))

/-- tf.losses.huberLoss with delta = 1, per element. -/
def huberUnit (err : ℚ) : ℚ :=
  let absError := |err|
  let quadratic := min absError 1
  let linear := absError - quadratic
  1 / 2 * (quadratic * quadratic) + linear

/-- tf.losses.huberLoss(labels, predictions): mean of the per-element Huber
losses of prediction minus label. -/
def huberLossMean (labels preds : List ℚ) : ℚ :=
  (List.zipWith (fun lb p => huberUnit (p - lb)) labels preds).sum / (labels.length : ℚ)

/-- The scalar loss DQN.train minimizes: Huber loss between the
double-estimator targets and the online Q-values of the actions taken. -/
def dqnTrainLoss (gamma : ℚ) (online target : List ℚ → List ℚ) (n : ℕ)
    (batch : List Transition) : ℚ :=
  huberLossMean (batch.map (doubleDQNTarget gamma online target n))
    (batch.map (qTaken online n))

lemma sum_zipWith_mul_zero {β : Type} (q : List ℚ) (l : List β) :
    (List.zipWith (fun a b => a * b) q (l.map (fun _ => (0 : ℚ)))).sum = 0 := by
  induction q generalizing l with
  | nil => simp
  | cons a q ih =>
    cases l with
    | nil => simp
    | cons x xs =>
      simp only [List.map_cons, List.zipWith_cons_cons, List.sum_cons, mul_zero, zero_add]
      exact ih xs

lemma maskedRowSum_oneHot (q : List ℚ) (i n : ℕ) (hlen : q.length = n) (hi : i < n) :
    maskedRowSum q (oneHot i n) = q.getD i 0 := by
  induction q generalizing i n with
  | nil =>
    subst hlen
    exact absurd hi (by simp)
  | cons a q ih =>
    cases n with
    | zero => exact absurd hi (by omega)
    | succ m =>
      have hq : q.length = m := by simpa using hlen
      simp only [maskedRowSum, oneHot, List.range_succ_eq_map, List.map_cons,
        List.map_map, List.zipWith_cons_cons, List.sum_cons]
      cases i with
      | zero =>
        have hz : (List.zipWith (fun a b => a * b) q
            ((List.range m).map ((fun j => if j = 0 then (1 : ℚ) else 0) ∘ Nat.succ))).sum = 0 := by
          have hfun : ((fun j => if j = 0 then (1 : ℚ) else 0) ∘ Nat.succ) =
              (fun _ : ℕ => (0 : ℚ)) := by
            funext j
            simp
          rw [hfun]
          exact sum_zipWith_mul_zero q (List.range m)
        simp [hz]
      | succ k =>
        have hk : k < m := by omega
        have hfun : ((fun j => if j = k + 1 then (1 : ℚ) else 0) ∘ Nat.succ) =
            (fun j : ℕ => if j = k then (1 : ℚ) else 0) := by
          funext j
          simp
        rw [hfun]
        have := ih k m hq hk
        simp only [maskedRowSum, oneHot] at this
        simp [this]

lemma argmaxP_fst_lt (l : List ℚ) :
    ∀ (best : ℕ × ℚ) (i : ℕ), best.1 < i → (argmaxP l best i).1 < i + l.length := by
  induction l with
  | nil =>
    intro best i hb
    simpa using hb
  | cons v rest ih =>
    intro best i hb
    simp only [argmaxP, List.length_cons]
    have hnext : (if best.2 < v then (i, v) else best).1 < i + 1 := by
      split
      · show i < i + 1
        omega
      · show best.1 < i + 1
        omega
    have := ih (if best.2 < v then (i, v) else best) (i + 1) hnext
    omega

lemma argmaxIdx_lt (l : List ℚ) (hl : l ≠ []) : argmaxIdx l < l.length := by
  cases l with
  | nil => exact absurd rfl hl
  | cons v rest =>
    simp only [argmaxIdx, List.length_cons]
    have := argmaxP_fst_lt rest (0, v) 1 (by omega)
    omega

lemma argmaxP_le (l : List ℚ) :
    ∀ (best : ℕ × ℚ) (i : ℕ),
      best.2 ≤ (argmaxP l best i).2 ∧ ∀ x ∈ l, x ≤ (argmaxP l best i).2 := by
  induction l with
  | nil =>
    intro best i
    exact ⟨le_refl _, by simp⟩
  | cons v rest ih =>
    intro best i
    obtain ⟨h1, h2⟩ := ih (if best.2 < v then (i, v) else best) (i + 1)
    constructor
    · refine le_trans ?_ h1
      split
      · exact le_of_lt (by assumption)
      · exact le_refl _
    · intro x hx
      rcases List.mem_cons.mp hx with hx | hx
      · subst hx
        refine le_trans ?_ h1
        split
        · exact le_refl _
        · exact le_of_not_lt (by assumption)
      · exact h2 x hx

lemma argmaxP_val (G : List ℚ) (l : List ℚ) :
    ∀ (best : ℕ × ℚ) (i : ℕ),
      G.getD best.1 0 = best.2 →
      (∀ j, j < l.length → l.getD j 0 = G.getD (i + j) 0) →
      G.getD (argmaxP l best i).1 0 = (argmaxP l best i).2 := by
  induction l with
  | nil =>
    intro best i hb _
    exact hb
  | cons v rest ih =>
    intro best i hb hloc
    simp only [argmaxP]
    refine ih _ (i + 1) ?_ ?_
    · split
      · have h0 := hloc 0 (by simp)
        simpa using h0.symm
      · exact hb
    · intro j hj
      have := hloc (j + 1) (by simpa using Nat.succ_lt_succ hj)
      simpa [Nat.add_assoc, Nat.add_comm 1 j, Nat.add_left_comm] using this

lemma argmaxIdx_is_max (l : List ℚ) (i : ℕ) (hi : i < l.length) :
    l.getD i 0 ≤ l.getD (argmaxIdx l) 0 := by
  cases l with
  | nil => exact absurd hi (by simp)
  | cons v rest =>
    obtain ⟨h1, h2⟩ := argmaxP_le rest (0, v) 1
    have hval : (v :: rest).getD (argmaxP rest (0, v) 1).1 0 = (argmaxP rest (0, v) 1).2 := by
      refine argmaxP_val (v :: rest) rest (0, v) 1 (by simp) ?_
      intro j hj
      have h3 : (1 : ℕ) + j = j + 1 := by omega
      rw [h3]
      simp
    simp only [argmaxIdx]
    rw [hval]
    cases i with
    | zero => simpa using h1
    | succ k =>
      have hk : k < rest.length := by simpa using hi
      refine h2 _ ?_
      have hsh : (v :: rest).getD (k + 1) 0 = rest.getD k 0 := by simp
      have hg : rest.getD k 0 = rest.get ⟨k, hk⟩ := by
        simp [List.getD_eq_getElem?_getD, List.getElem?_eq_getElem hk]
      rw [hsh, hg]
      exact List.get_mem rest k hk

lemma zipWith_map_same {α β γ δ : Type} (f : β → γ → δ) (g : α → β) (h : α → γ)
    (l : List α) :
    List.zipWith f (l.map g) (l.map h) = l.map (fun x => f (g x) (h x)) := by
  induction l with
  | nil => rfl
  | cons a l ih => simp [ih]

/-- Claim C4: for every minibatch processed by DQN.train, the learning
target of each transition equals the immediate reward plus gamma times the
TARGET network's value at the index that is the argmax of the ONLINE
network's row on the next observation (a true maximizer), with the
discounted term masked to zero for terminal transitions; the predicted
value is the online row at the action actually taken; and the minimized
loss is the mean Huber loss between these targets and predictions. -/
theorem dqn_double_estimator_target (gamma : ℚ) (online target : List ℚ → List ℚ)
    (n : ℕ) (b : Transition)
    (h1 : (online b.nextObs).length = n) (h2 : (target b.nextObs).length = n)
    (h3 : (online b.obs).length = n) (h4 : b.action < n) (hn : 0 < n) :
    doubleDQNTarget gamma online target n b =
        b.reward + gamma *
          (if b.done then 0
           else (target b.nextObs).getD (argmaxIdx (online b.nextObs)) 0) ∧
      qTaken online n b = (online b.obs).getD b.action 0 ∧
      (∀ j, j < n → (online b.nextObs).getD j 0 ≤
        (online b.nextObs).getD (argmaxIdx (online b.nextObs)) 0) ∧
      (∀ batch : List Transition,
        dqnTrainLoss gamma online target n batch =
          (batch.map (fun b2 =>
            huberUnit (qTaken online n b2 - doubleDQNTarget gamma online target n b2))).sum
            / (batch.length : ℚ)) := by
  have hnonempty : online b.nextObs ≠ [] := by
    intro hnil
    rw [hnil] at h1
    simp at h1
    omega
  have hargmax : argmaxIdx (online b.nextObs) < n := by
    have := argmaxIdx_lt (online b.nextObs) hnonempty
    omega
  refine ⟨?_, ?_, ?_, ?_⟩
  · simp only [doubleDQNTarget]
    rw [maskedRowSum_oneHot _ _ _ h2 hargmax]
    cases hd : b.done with
    | false =>
      rw [if_neg (by simp), if_neg (by simp)]
      ring
    | true =>
      rw [if_pos rfl, if_pos rfl]
      ring
  · exact maskedRowSum_oneHot _ _ _ h3 h4
  · intro j hj
    have hjl : j < (online b.nextObs).length := by omega
    exact argmaxIdx_is_max (online b.nextObs) j hjl
  · intro batch
    unfold dqnTrainLoss huberLossMean
    rw [zipWith_map_same, List.length_map]

/-- A toy online network for concrete evaluation. -/
def onlineToy : List ℚ → List ℚ := fun l => [l.sum, 0]

/-- A toy target network for concrete evaluation. -/
def targetToy : List ℚ → List ℚ := fun _ => [7, 9]

/-- A concrete transition for the DQN witness. -/
def bToy : Transition :=
  { obs := [1, 2], action := 1, reward := 5, nextObs := [3], done := false }

/-- Witness for claim C4 at concrete toy networks and a concrete
transition. -/
theorem dqn_double_estimator_target_witness :
    ((onlineToy bToy.nextObs).length = 2 ∧ (targetToy bToy.nextObs).length = 2 ∧
      (onlineToy bToy.obs).length = 2 ∧ bToy.action < 2 ∧ 0 < 2) ∧
      (doubleDQNTarget (99 / 100) onlineToy targetToy 2 bToy =
          bToy.reward + (99 / 100) *
            (if bToy.done then 0
             else (targetToy bToy.nextObs).getD (argmaxIdx (onlineToy bToy.nextObs)) 0) ∧
        qTaken onlineToy 2 bToy = (onlineToy bToy.obs).getD bToy.action 0 ∧
        (∀ j, j < 2 → (onlineToy bToy.nextObs).getD j 0 ≤
          (onlineToy bToy.nextObs).getD (argmaxIdx (onlineToy bToy.nextObs)) 0) ∧
        (∀ batch : List Transition,
          dqnTrainLoss (99 / 100) onlineToy targetToy 2 batch =
            (batch.map (fun b2 =>
              huberUnit (qTaken onlineToy 2 b2
                - doubleDQNTarget (99 / 100) onlineToy targetToy 2 b2))).sum
              / (batch.length : ℚ))) :=
  ⟨⟨by decide, by decide, by decide, by decide, by decide⟩,
   dqn_double_estimator_target (99 / 100) onlineToy targetToy 2 bToy
     (by decide) (by decide) (by decide) (by decide) (by decide)⟩

/-! ### Training worker: epsilon annealing (claim C5) -/

/-- The epsilon value the training loop exposes after `ep` completed
episodes: the start value before the loop (ep = 0), and thereafter the
linear interpolation frac = min(1, ep / max(1, decay)),
epsilon = start * (1 - frac) + endv * frac computed at the end of each
episode. -/
def epsilonAt (start endv : ℚ) (decay : ℕ) : ℕ → ℚ
  | 0 => start
  | ep + 1 =>
    let frac := min 1 (((ep + 1 : ℕ) : ℚ) / ((max 1 decay : ℕ) : ℚ))
    start * (1 - frac) + endv * frac

lemma epsilonAt_ramp (start endv : ℚ) (decay : ℕ) (hd : 1 ≤ decay) (ep : ℕ)
    (hep : ep ≤ decay) :
    epsilonAt start endv decay ep =
      start * (1 - (ep : ℚ) / (decay : ℚ)) + endv * ((ep : ℚ) / (decay : ℚ)) := by
  have hdq : (0 : ℚ) < (decay : ℚ) := by
    exact_mod_cast hd
  cases ep with
  | zero =>
    simp [epsilonAt]
  | succ m =>
    have hmax : max 1 decay = decay := by omega
    have hfrac : ((m + 1 : ℕ) : ℚ) / ((max 1 decay : ℕ) : ℚ) ≤ 1 := by
      rw [hmax, div_le_one hdq]
      exact_mod_cast hep
    simp only [epsilonAt]
    rw [min_eq_right hfrac, hmax]

lemma epsilonAt_held (start endv : ℚ) (decay : ℕ) (hd : 1 ≤ decay) (ep : ℕ)
    (hep : decay ≤ ep) (hep0 : 1 ≤ ep) :
    epsilonAt start endv decay ep = endv := by
  have hdq : (0 : ℚ) < (decay : ℚ) := by exact_mod_cast hd
  cases ep with
  | zero => omega
  | succ m =>
    have hmax : max 1 decay = decay := by omega
    have hfrac : (1 : ℚ) ≤ ((m + 1 : ℕ) : ℚ) / ((max 1 decay : ℕ) : ℚ) := by
      rw [hmax, le_div_iff hdq]
      have : (decay : ℚ) ≤ ((m + 1 : ℕ) : ℚ) := by exact_mod_cast hep
      linarith
    simp only [epsilonAt]
    rw [min_eq_left hfrac]
    ring

lemma epsilonAt_lower_bound (start endv : ℚ) (decay : ℕ) (hse : endv ≤ start) (ep : ℕ) :
    endv ≤ epsilonAt start endv decay ep := by
  cases ep with
  | zero => exact hse
  | succ m =>
    simp only [epsilonAt]
    set f := min 1 (((m + 1 : ℕ) : ℚ) / ((max 1 decay : ℕ) : ℚ)) with hf
    have hf1 : f ≤ 1 := min_le_left _ _
    have hf0 : 0 ≤ f := by
      rw [hf]
      have hpos : (0 : ℚ) ≤ ((m + 1 : ℕ) : ℚ) / ((max 1 decay : ℕ) : ℚ) := by
        apply div_nonneg
        · exact_mod_cast Nat.zero_le _
        · exact_mod_cast Nat.zero_le _
      exact le_min (by norm_num) hpos
    nlinarith

/-- Claim C5: with epsilonStart = 1.0, epsilonEnd = 0.1 and
epsilonDecayEpisodes = 200, epsilon is 1 at episode 0 (before any
annealing), exactly 1/10 at episode 200, still 1/10 at episode 400 and at
every episode beyond the horizon, never drops below 1/10 at any episode,
and on the ramp it is the linear interpolation in the episode index. -/
theorem epsilon_linear_anneal (ep : ℕ) :
    epsilonAt 1 (1 / 10) 200 0 = 1 ∧
      epsilonAt 1 (1 / 10) 200 200 = 1 / 10 ∧
      epsilonAt 1 (1 / 10) 200 400 = 1 / 10 ∧
      (200 ≤ ep → epsilonAt 1 (1 / 10) 200 ep = 1 / 10) ∧
      (1 / 10 : ℚ) ≤ epsilonAt 1 (1 / 10) 200 ep ∧
      (ep ≤ 200 →
        epsilonAt 1 (1 / 10) 200 ep =
          1 * (1 - (ep : ℚ) / 200) + (1 / 10) * ((ep : ℚ) / 200)) := by
  refine ⟨rfl, ?_, ?_, ?_, ?_, ?_⟩
  · rw [epsilonAt_held 1 (1 / 10) 200 (by omega) 200 (by omega) (by omega)]
  · rw [epsilonAt_held 1 (1 / 10) 200 (by omega) 400 (by omega) (by omega)]
  · intro h
    rw [epsilonAt_held 1 (1 / 10) 200 (by omega) ep h (by omega)]
  · exact epsilonAt_lower_bound 1 (1 / 10) 200 (by norm_num) ep
  · intro h
    have := epsilonAt_ramp 1 (1 / 10) 200 (by omega) ep h
    rw [this]
    norm_num

/-- Witness for claim C5 at episode 300 (past the decay horizon). -/
theorem epsilon_linear_anneal_witness :
    epsilonAt 1 (1 / 10) 200 0 = 1 ∧
      epsilonAt 1 (1 / 10) 200 200 = 1 / 10 ∧
      epsilonAt 1 (1 / 10) 200 400 = 1 / 10 ∧
      (200 ≤ 300 → epsilonAt 1 (1 / 10) 200 300 = 1 / 10) ∧
      (1 / 10 : ℚ) ≤ epsilonAt 1 (1 / 10) 200 300 ∧
      (300 ≤ 200 →
        epsilonAt 1 (1 / 10) 200 300 =
          1 * (1 - (300 : ℚ) / 200) + (1 / 10) * ((300 : ℚ) / 200)) :=
  epsilon_linear_anneal 300

/-! ### Training worker: cooperative cancellation (claim C6) -/

/-- The inner step loop of trainLoop: starting at time t with `cap` step
iterations remaining, run steps until the environment reports done or the
cap is reached.  The loop condition checks only the step cap — the stop
flag is NOT observed here, exactly as in the source.  Returns the number of
step iterations executed; each consumes one time tick. -/
def stepsRun (done : ℕ → Bool) : ℕ → ℕ → ℕ
  | 0, _ => 0
  | cap + 1, t => if done t then 1 else 1 + stepsRun done cap (t + 1)

/-- The episode loop of trainLoop: the stop flag is observed at the top of
each episode iteration (`ep <= episodes && !shouldStop`); each episode then
runs its step loop to completion.  Returns, per executed episode, its
index, the time at which its flag check happened, and the number of steps
it executed.  The function always returns (the done message is emitted when
it does). -/
def trainEpisodes (flag done : ℕ → Bool) (maxSteps : ℕ) :
    ℕ → ℕ → ℕ → List (ℕ × ℕ × ℕ)
  | 0, _, _ => []
  | n + 1, ep, t =>
    if flag t then []
    else
      let k := stepsRun done maxSteps t
      (ep, t, k) :: trainEpisodes flag done maxSteps n (ep + 1) (t + k)

/-- A stop flag that is set from time 1 on. -/
def flagFrom1 : ℕ → Bool := fun t => decide (1 ≤ t)

/-- An environment that never terminates an episode on its own. -/
def neverDone : ℕ → Bool := fun _ => false

/-- Counterexample to claim C6 as stated: with one episode of step cap 3 and
the stop flag set after the first step (time 1), the claim predicts that no
further step iteration begins within the episode; but the step loop never
observes the flag, so the episode still executes all 3 steps — the second
and third step iterations begin at times 1 and 2, after the flag is set. -/
theorem stop_flag_not_checked_in_step_loop :
    flagFrom1 1 = true ∧
      trainEpisodes flagFrom1 neverDone 3 1 1 0 = [(1, 0, 3)] ∧
      stepsRun neverDone 3 0 = 3 := by
  refine ⟨rfl, ?_, rfl⟩
  rfl

/-- Claim C6 (amended): the stop flag is observed only at the top of the
episode loop.  Every episode that begins saw the flag unset at its start
check; hence once the flag is set, the in-flight episode completes all its
remaining step iterations (up to termination or the step cap) but no
further episode begins before the loop returns and the done message is
emitted. -/
theorem stop_flag_episode_granularity (flag done : ℕ → Bool) (maxSteps n ep t : ℕ) :
    ∀ e ∈ trainEpisodes flag done maxSteps n ep t, flag e.2.1 = false := by
  induction n generalizing ep t with
  | zero =>
    intro e he
    simp [trainEpisodes] at he
  | succ m ih =>
    intro e he
    simp only [trainEpisodes] at he
    by_cases hf : flag t
    · rw [if_pos hf] at he
      simp at he
    · rw [if_neg hf] at he
      rcases List.mem_cons.mp he with he | he
      · subst he
        simpa using hf
      · exact ih _ _ e he

/-- Witness for claim C6 (amended): a two-episode run whose flag becomes
true at time 2 executes only the first episode, which began (at time 0)
with the flag unset. -/
theorem stop_flag_episode_granularity_witness :
    (fun t => decide (2 ≤ t)) ((1, 0, 2) : ℕ × ℕ × ℕ).2.1 = false :=
  stop_flag_episode_granularity (fun t => decide (2 ≤ t)) neverDone 2 2 1 0
    (1, 0, 2) (by decide)

end DinoRL
